import Mathlib

/-!
Verification development for the steroCameraGUI repository.

The Python sources are shallowly embedded: pure numeric code over exact
rational arithmetic (`ℚ`), stateful driver objects as explicit state-passing
functions, Qt signal emissions and log calls as event traces, and Python
exceptions as `Except` / `Option` failure values.  Backend (vendor SDK) calls
are modelled by an oracle: the integer status code the native call would
return is passed in as a parameter, and every native call issued is recorded
in a trace so that "no hardware call happens" claims are expressible.
-/

namespace Render

/-- The epsilon guard used by `render.py`'s `normalize` (`1e-16`), as an exact
rational.  Python computes in IEEE doubles; this embedding computes in `ℚ`. -/
def eps : ℚ := 1 / 10 ^ 16

/-- Python's `int()` applied to a rational value: truncation toward zero. -/
def pytrunc (q : ℚ) : ℤ := if q < 0 then -Int.floor (-q) else Int.floor q

/-- Round a rational to the nearest integer, ties to even — the rounding used
by IEEE-754 binary64 arithmetic. -/
def rne (y : ℚ) : ℤ :=
  if y - Int.floor y < 1 / 2 then Int.floor y
  else if y - Int.floor y > 1 / 2 then Int.floor y + 1
  else if 2 ∣ Int.floor y then Int.floor y else Int.floor y + 1

/-- Round a positive rational onto the binary64 grid: scale into the
53-bit-significand window `[2^52, 2^53)`, round to nearest-even, scale back. -/
def roundToDoublePos (q : ℚ) : ℚ :=
  (rne (q / 2 ^ (Int.log 2 q - 52)) : ℚ) * 2 ^ (Int.log 2 q - 52)

/-- Round a rational to the nearest IEEE-754 binary64 value (normal range;
overflow and subnormals are ignored, far from every value the program
handles).  Negative values round by sign symmetry, as binary64 does. -/
def roundToDouble (q : ℚ) : ℚ :=
  if q < 0 then -roundToDoublePos (-q)
  else if q = 0 then 0
  else roundToDoublePos q

/-- The Python literal `1e-16`: the binary64 value nearest `10^-16`. -/
def eps64 : ℚ := roundToDouble eps

/-- Binary64 addition: exact sum, then one rounding. -/
def floatAdd (a b : ℚ) : ℚ := roundToDouble (a + b)

/-- Binary64 subtraction: exact difference, then one rounding. -/
def floatSub (a b : ℚ) : ℚ := roundToDouble (a - b)

/-- Binary64 multiplication: exact product, then one rounding. -/
def floatMul (a b : ℚ) : ℚ := roundToDouble (a * b)

/-- Binary64 division: exact quotient, then one rounding. -/
def floatDiv (a b : ℚ) : ℚ := roundToDouble (a / b)

/-- The progress percentage `render.py` emits: `int(count / total * 100)`
evaluated in Python's double arithmetic — one correctly-rounded division, one
correctly-rounded multiplication, then truncation (both counts are small
integers, hence exact as doubles). -/
def progressValue (count total : ℕ) : ℤ :=
  pytrunc (floatMul (floatDiv (count : ℚ) (total : ℚ)) 100)

/-- The accumulation loop of `render.py`'s `find_min_max`: walk the tail,
lowering the running minimum and raising the running maximum. -/
def fmmLoop : List ℚ → ℚ → ℚ → ℚ × ℚ
  | [], mn, mx => (mn, mx)
  | x :: xs, mn, mx =>
    if x < mn then fmmLoop xs x mx
    else if x > mx then fmmLoop xs mn x
    else fmmLoop xs mn mx

/-- Embedding of `render.py` `find_min_max`: `none` for the empty list (the source returns
`(None, None)`), otherwise the one-pass minimum and maximum. -/
def find_min_max : List ℚ → Option (ℚ × ℚ)
  | [] => none
  | x :: xs => some (fmmLoop xs x x)

/-- Embedding of `render.py` `normalize`: `[int((x - min)/(max - min + 1e-16) * 255) for x in data]`,
read in exact rational arithmetic.  This reading coincides with the program's
double arithmetic where rounding is immaterial: the comparisons of
`find_min_max`, inputs whose numerator is exactly zero (constant sequences),
and the fact that every produced value stays within the range `bytes()`
accepts — which is all the batch-level theorems below depend on;
`normalize64` is the double-faithful reading used for per-sample value
claims.  On the empty list the comprehension is empty and the `None` min/max
are never touched, hence the `none => []` arm. -/
def normalize (data : List ℚ) : List ℤ :=
  match find_min_max data with
  | none => []
  | some p => data.map fun x => pytrunc ((x - p.1) / (p.2 - p.1 + eps) * 255)

/-- IEEE-double reading of `render.py` `normalize`: every arithmetic step of
`int((x - min)/(max - min + 1e-16) * 255)` is rounded to the nearest binary64
value, and `1e-16` is the binary64 literal `eps64`; the samples themselves are
binary64 values as loaded from JSON.  `find_min_max` needs no counterpart:
it only compares. -/
def normalize64 (data : List ℚ) : List ℤ :=
  match find_min_max data with
  | none => []
  | some p => data.map fun x =>
      pytrunc (floatMul (floatDiv (floatSub x p.1) (floatAdd (floatSub p.2 p.1) eps64)) 255)

/-- Events observable from the render pipeline: the `logger.error` emitted on a
shape mismatch, the `image.save` call, and the `step_signal.emit` progress
report carrying the document name, the running processed count and the integer
progress value. -/
inductive RenderEvent
  | errorLog (msg : String)
  | imageWrite (path : String)
  | progress (name : String) (count : ℕ) (value : ℤ)
deriving DecidableEq

/-- Python list indexing `row[x]` over the inner comprehension indices `xs`,
producing the three replicated channel values per pixel; `none` models the
`IndexError` raised when an index is out of range. -/
def bufIdx (row : List ℤ) : List ℕ → Option (List ℤ)
  | [] => some []
  | x :: xs =>
    match row[x]? with
    | none => none
    | some v => (bufIdx row xs).map fun rest => v :: v :: v :: rest

/-- The outer comprehension of `save_ir_img`'s buffer construction: for each
row index `y`, index the row and expand it with `bufIdx`. -/
def bufArray (array : List (List ℤ)) (w : ℕ) : List ℕ → Option (List ℤ)
  | [] => some []
  | y :: ys =>
    match array[y]? with
    | none => none
    | some row =>
      match bufIdx row (List.range w) with
      | none => none
      | some part => (bufArray array w ys).map fun rest => part ++ rest

/-- Embedding of `bytes([array[y][x] for y in range(height) for x in range(width) for _ in range(3)])`:
`none` models the `IndexError` from an out-of-range access. -/
def buildBuf (array : List (List ℤ)) (h w : ℕ) : Option (List ℤ) :=
  bufArray array w (List.range h)

/-- Embedding of `render.py` `save_ir_img`: log a mismatch error if the sample count is not
`height * width` (the source does NOT return early), normalize, reshape by
Python slicing (which clamps), build the byte buffer (raising `IndexError` on
an undersized matrix), check the byte range as `bytes()` would (`ValueError`
outside `[0, 256)`), and save the image.  Returns the events emitted and
either the pixel buffer or the exception that propagates. -/
def save_ir_img (name : String) (data : List ℚ) (h w : ℕ) :
    List RenderEvent × Except String (List ℤ) :=
  let mm : List RenderEvent :=
    if data.length ≠ h * w then [.errorLog "Data size mismatch"] else []
  let dn := normalize data
  let array := (List.range h).map fun i => (dn.drop (i * w)).take w
  match buildBuf array h w with
  | none => (mm, .error "IndexError")
  | some buf =>
    if buf.all fun v => decide (0 ≤ v ∧ v < 256) then
      (mm ++ [.imageWrite (name ++ ".jpg")], .ok buf)
    else (mm, .error "ValueError")

/-- The per-document loop of `render.py` `render_temp2img`: save each matrix,
bump the count, emit one progress event with value `int(count / total * 100)`.
An exception from `save_ir_img` propagates and aborts the remaining documents;
events emitted before the exception have already been delivered. -/
def renderLoop (h w total : ℕ) : List (String × List ℚ) → ℕ → List RenderEvent × Except String ℕ
  | [], count => ([], .ok count)
  | (name, data) :: rest, count =>
    match save_ir_img name data h w with
    | (evs, .error e) => (evs, .error e)
    | (evs, .ok _) =>
      let c := count + 1
      let pv := progressValue c total
      let (evs2, out) := renderLoop h w total rest c
      (evs ++ [.progress name c pv] ++ evs2, out)

/-- Embedding of `render.py` `render_temp2img` over an already-loaded working set (the
documents `load_ir_temp` would return, in iteration order).  An empty working
set yields the count-0 result; otherwise the loop runs with the total equal to
the working-set size.  Returns the emitted event trace and either the final
processed count or the exception that aborted the batch. -/
def render_temp2img (h w : ℕ) (docs : List (String × List ℚ)) :
    List RenderEvent × Except String ℕ :=
  if docs.isEmpty then ([], .ok 0)
  else renderLoop h w docs.length docs 0

/-- Modelled from the spec: the per-sample mapping §4.6 claims —
`round((x - min)/(max - min + epsilon) * 255)` clamped to `[0, 255]` — applied
with the same one-pass `(min, max)`.  Used only to compare against the
source-derived `normalize`. -/
def specNormalize (data : List ℚ) : List ℤ :=
  match find_min_max data with
  | none => []
  | some p =>
    data.map fun x => min 255 (max 0 (round ((x - p.1) / (p.2 - p.1 + eps) * 255)))

/-- The per-document trace a fully successful working set produces: per
document, one image write immediately followed by one progress event, counts
increasing from `c0 + 1`, with the percentage the program's double-rounded
`int(count / total * 100)` (the spec's exact `floor` formula can differ from
it — see the C6 counterexample). -/
def specTraceFrom (total : ℕ) : ℕ → List (String × List ℚ) → List RenderEvent
  | _, [] => []
  | c0, d :: rest =>
    .imageWrite (d.1 ++ ".jpg")
      :: .progress d.1 (c0 + 1) (progressValue (c0 + 1) total)
      :: specTraceFrom total (c0 + 1) rest

/-- The full expected event trace of a successful run, counts `1 .. n`. -/
def specProgressTrace (docs : List (String × List ℚ)) : List RenderEvent :=
  specTraceFrom docs.length 0 docs

end Render

/-- The spec's SessionState enum, used to phrase claims about the drivers'
boolean state flags. -/
inductive SessionState
  | uninitialized
  | initialized
  | connected
  | streaming
deriving DecidableEq

namespace HikDriver

/-- Embedding of `MV_OK = 0`; the drivers return `not MV_OK`, i.e. Python `True` = 1, on
failure. -/
def MV_OK : ℤ := 0

/-- The native SDK calls `hikDriver.py` can issue. -/
inductive HkCall
  | openDevice
  | setTriggerMode
  | startGrabbing
  | stopGrabbing
  | closeDevice
deriving DecidableEq

/-- The `RGBCamera` control-plane state: `logged_in`, `video_opened`, and
whether `hk_obj_cam_operation` is a real object rather than `None`. -/
structure RGBState where
  loggedIn : Bool
  videoOpened : Bool
  hasCamOp : Bool
deriving DecidableEq

/-- Result of one `RGBCamera` method: the Python return value (`0` = `MV_OK`,
`1` = `not MV_OK`), the successor state, the native calls issued, and whether
the already-done warning branch (`Already logged in` / `Already started
grabbing` / `Already logged out`) was taken. -/
structure HkOutcome where
  ret : ℤ
  state : RGBState
  calls : List HkCall
  dupWarned : Bool
deriving DecidableEq

/-- Embedding of `RGBCamera.hk_open_device`: refuse when already logged in or the index is
negative (no native call in either case); otherwise construct the
`CameraOperation`, issue `Open_device`, and on success also issue
`Set_trigger_mode` (whose return value the source ignores) before setting
`logged_in`. -/
def hk_open_device (nSel : ℤ) (backendOpen : ℤ) (s : RGBState) : HkOutcome :=
  if s.loggedIn then ⟨1, s, [], true⟩
  else if nSel < 0 then ⟨1, s, [], false⟩
  else
    let s1 : RGBState := { s with hasCamOp := true }
    if backendOpen ≠ MV_OK then ⟨1, s1, [.openDevice], false⟩
    else ⟨MV_OK, { s1 with loggedIn := true }, [.openDevice, .setTriggerMode], false⟩

/-- Embedding of `RGBCamera.hk_start_grabbing`: fail without a native call when not logged
in; succeed without a native call when already grabbing; otherwise issue
`Start_grabbing` (an `AttributeError` would escape if `hk_obj_cam_operation`
were `None`). -/
def hk_start_grabbing (backendStart : ℤ) (s : RGBState) : Except String HkOutcome :=
  if ¬s.loggedIn then .ok ⟨1, s, [], false⟩
  else if s.videoOpened then .ok ⟨MV_OK, s, [], true⟩
  else if ¬s.hasCamOp then .error "AttributeError"
  else if backendStart ≠ 0 then .ok ⟨1, s, [.startGrabbing], false⟩
  else .ok ⟨MV_OK, { s with videoOpened := true }, [.startGrabbing], false⟩

/-- Embedding of `RGBCamera.hk_stop_grabbing`: the source has NO state guard — it always
dereferences `hk_obj_cam_operation` (raising `AttributeError` when it is
`None`), always issues the native `Stop_grabbing`, always clears
`video_opened`, and maps the backend code to `MV_OK` / `not MV_OK`. -/
def hk_stop_grabbing (backendStop : ℤ) (s : RGBState) : Except String HkOutcome :=
  if ¬s.hasCamOp then .error "AttributeError"
  else
    let s1 : RGBState := { s with videoOpened := false }
    if backendStop ≠ MV_OK then .ok ⟨1, s1, [.stopGrabbing], false⟩
    else .ok ⟨MV_OK, s1, [.stopGrabbing], false⟩

/-- Embedding of `RGBCamera.hk_close_device`: already logged out is an immediate success
with no native call; otherwise force a stop (whose result is discarded), issue
`Close_device` (return value ignored), clear `logged_in`, and return `MV_OK`
regardless of the backend codes. -/
def hk_close_device (backendStop : ℤ) (s : RGBState) : Except String HkOutcome :=
  if ¬s.loggedIn then .ok ⟨MV_OK, s, [], true⟩
  else
    match hk_stop_grabbing backendStop s with
    | .error e => .error e
    | .ok o =>
      .ok ⟨MV_OK, { o.state with videoOpened := false, loggedIn := false },
        o.calls ++ [.closeDevice], false⟩

/-- The spec's state mapping for the RGB session: `logged_in` distinguishes
Initialized from Connected, `video_opened` marks Streaming. -/
def rgbSessionState (s : RGBState) : SessionState :=
  if s.loggedIn then (if s.videoOpened then .streaming else .connected)
  else .initialized

end HikDriver

namespace GuideDriver

/-- Embedding of `SGP_OK = 0` (`irOperation.py` line 55); failures return `not SGP_OK` = 1. -/
def SGP_OK : ℤ := 0

/-- The native SDK calls `guideDriver.py` can issue for the claims at hand. -/
inductive SgpCall
  | loginCall
  | logoutCall
  | openIrVideo
  | closeIrVideo
deriving DecidableEq

/-- The `IRCamera` control-plane state: the SDK handle (`none` models Python
`None`), `_logged_in`, and `_video_opened`. -/
structure IRState where
  handle : Option ℤ
  loggedIn : Bool
  videoOpened : Bool
deriving DecidableEq

/-- Result of one `IRCamera` method, mirroring `HkOutcome`. -/
structure SgpOutcome where
  ret : ℤ
  state : IRState
  calls : List SgpCall
  dupWarned : Bool
deriving DecidableEq

/-- Embedding of `IRCamera._ensure_handle`: `SGP_OK` iff the handle is not `None`. -/
def ensure_handle (s : IRState) : ℤ := if s.handle = none then 1 else SGP_OK

/-- Embedding of `IRCamera.login`: handle check first; an already-logged-in session returns
`SGP_OK` with only a warning and no native call; otherwise issue the native
login. -/
def login (backendLogin : ℤ) (s : IRState) : SgpOutcome :=
  if ensure_handle s ≠ SGP_OK then ⟨1, s, [], false⟩
  else if s.loggedIn then ⟨SGP_OK, s, [], true⟩
  else if backendLogin = SGP_OK then ⟨SGP_OK, { s with loggedIn := true }, [.loginCall], false⟩
  else ⟨1, s, [.loginCall], false⟩

/-- Embedding of `IRCamera.logout`: the already-logged-out guard only logs a warning — the
`return SGP_OK` on that branch is commented out in the source — so the native
`logout` is ALWAYS issued, `_logged_in` is always cleared, and the return
value tracks the backend code even for an already-closed session.  The
`handle = none` arm is schematic: the source would raise `TypeError` inside
the ctypes wrapper (`SGP_HANDLE(None)`); no theorem below relies on that
arm — all logout claims are stated at `handle = some` states. -/
def logout (backendLogout : ℤ) (s : IRState) : SgpOutcome :=
  let dup : Bool := s.handle = none ∨ ¬s.loggedIn
  let s1 : IRState := { s with loggedIn := false }
  if backendLogout = SGP_OK then ⟨SGP_OK, s1, [.logoutCall], dup⟩
  else ⟨1, s1, [.logoutCall], dup⟩

/-- Embedding of `IRCamera.open_ir_video`: handle check; an already-open video returns
`SGP_OK` with only a warning and no native call; otherwise issue the native
open. -/
def open_ir_video (backendOpen : ℤ) (s : IRState) : SgpOutcome :=
  if ensure_handle s ≠ SGP_OK then ⟨1, s, [], false⟩
  else if s.videoOpened then ⟨SGP_OK, s, [], true⟩
  else if backendOpen = SGP_OK then
    ⟨SGP_OK, { s with videoOpened := true }, [.openIrVideo], false⟩
  else ⟨1, s, [.openIrVideo], false⟩

/-- Embedding of `IRCamera.close_ir_video`: a no-op success when the handle is `None` or
the video is not open; otherwise issue the native close (return value
ignored), clear `_video_opened`, and return `SGP_OK`. -/
def close_ir_video (s : IRState) : SgpOutcome :=
  if s.handle = none ∨ ¬s.videoOpened then ⟨SGP_OK, s, [], true⟩
  else ⟨SGP_OK, { s with videoOpened := false }, [.closeIrVideo], false⟩

/-- The spec's state mapping for the IR session: no handle means
Uninitialized; otherwise `_logged_in` / `_video_opened` pick the state. -/
def irSessionState (s : IRState) : SessionState :=
  match s.handle with
  | none => .uninitialized
  | some _ =>
    if s.loggedIn then (if s.videoOpened then .streaming else .connected)
    else .initialized

end GuideDriver


namespace Py

/-- A fragment of Python's value universe sufficient for the parameter
validators: booleans, integers, strings and `None`.  Python's `bool` is a
subclass of `int`, which `isinstanceInt` and `numeric` reflect. -/
inductive PyVal
  | pyBool (b : Bool)
  | pyInt (n : ℤ)
  | pyStr (s : String)
  | pyNone
deriving DecidableEq

/-- Python `isinstance(v, int)`: true for `bool` values as well, because
`bool` is a subclass of `int`. -/
def isinstanceInt : PyVal → Bool
  | .pyBool _ => true
  | .pyInt _ => true
  | _ => false

/-- The integer a `bool`/`int` value denotes in Python arithmetic and
comparisons (`True == 1`, `False == 0`).  Only consulted after an
`isinstanceInt` guard, so the remaining arms are never reached. -/
def numeric : PyVal → ℤ
  | .pyBool b => if b then 1 else 0
  | .pyInt n => n
  | _ => 0

/-- Python `int(v)`: identity on ints, `1`/`0` on bools, string parsing on
strings, and a `TypeError` (`none`) on `None`. -/
def intConv : PyVal → Option ℤ
  | .pyBool b => some (if b then 1 else 0)
  | .pyInt n => some n
  | .pyStr s => s.toInt?
  | .pyNone => none

end Py

namespace HikDriver

open Py

/-- Embedding of `RGBCameraParam.set_gain`: reject non-`isinstance(int)` input or a value
outside `[0, 17]`, otherwise cache the value exactly as supplied (a Python
`True` stays `True`) and return `MV_OK`.  Result: (return code, cached value). -/
def set_gain (gain : PyVal) : ℤ × Option PyVal :=
  if ¬isinstanceInt gain then (1, none)
  else if ¬(0 ≤ numeric gain ∧ numeric gain ≤ 17) then (1, none)
  else (MV_OK, some gain)

end HikDriver

namespace GuideDriver

open Py

/-- Embedding of `IRCameraParam.set_port`: coerce with `int(port)` (a `TypeError` /
`ValueError` is caught and reported as failure), then require `1 ≤ p ≤ 65535`
and store the coerced integer.  Result: (return code, stored port). -/
def set_port (port : PyVal) : ℤ × Option ℤ :=
  match intConv port with
  | none => (1, none)
  | some p =>
    if p < 1 ∨ p > 65535 then (1, none)
    else (SGP_OK, some p)

end GuideDriver

namespace Worker

/-- Events a worker thread delivers to the UI thread: the terminal `result`
and `error` signals and the loop worker's intermediate `step` signal. -/
inductive Event (α β : Type)
  | result (v : α)
  | error
  | step (v : β)

/-- Whether an event is terminal (`result` or `error`). -/
def isTerminal {α β : Type} : Event α β → Bool
  | .result _ => true
  | .error => true
  | .step _ => false

/-- Embedding of `FunctionWorker.run`: `try: emit result(f(...)) except: emit error()`.
The task body either returns a value or raises; the bare `except` converts
any exception into the `error` signal, so `run` itself never raises. -/
def FunctionWorker.run {α β : Type} (body : Except Unit α) : List (Event α β) :=
  match body with
  | .ok v => [.result v]
  | .error _ => [.error]

/-- Embedding of `FunctionLoopWorker.run`: the body receives the `step` signal and emits
zero or more step events before returning or raising; the wrapper then emits
exactly one of `result` / `error`. -/
def FunctionLoopWorker.run {α β : Type} (body : List β × Except Unit α) : List (Event α β) :=
  body.1.map .step ++
    (match body.2 with
     | .ok v => [Event.result v]
     | .error _ => [Event.error])

end Worker

namespace Demo

/-- The user-facing InfoBar notices the start path of
`Window.startButtonClicked` can raise. -/
inductive Notice
  | duplicateStart
  | rgbStartFail
  | irStartFail
  | noCameraWarn
deriving DecidableEq

/-- A native call issued by either driver, tagged by driver. -/
inductive AppCall
  | hk (c : HikDriver.HkCall)
  | sgp (c : GuideDriver.SgpCall)
deriving DecidableEq

/-- The `Window` state relevant to acquisition control: both driver objects
and the ad hoc open/busy boolean flags. -/
structure AppState where
  rgb : HikDriver.RGBState
  ir : GuideDriver.IRState
  rgbOpenFlag : Bool
  irOpenFlag : Bool
  rgbBusyFlag : Bool
  irBusyFlag : Bool
deriving DecidableEq

/-- Result of the start path: the successor window state, the notices shown,
and every native call issued (in order). -/
structure StartOutcome where
  state : AppState
  notices : List Notice
  calls : List AppCall
deriving DecidableEq

/-- The start branch of `Window.startButtonClicked` (demo.py lines 716-819,
the combined begin-acquisition operation): when both cameras are open, start
RGB grabbing first; on RGB failure stop the RGB camera itself and return; on
RGB success open the IR video; on IR failure the source closes the IR video
(a no-op, since it never opened) and does NOT stop the RGB stream, leaving
`rgbBusyFlag` set.  Oracle parameters carry the backend codes of the native
calls that may be issued. -/
def startAcquisition (bRgbStart bRgbStop bIrOpen : ℤ) (st : AppState) :
    Except String StartOutcome :=
  if st.rgbBusyFlag ∨ st.irBusyFlag then .ok ⟨st, [.duplicateStart], []⟩
  else if st.rgbOpenFlag ∧ st.irOpenFlag then
    match HikDriver.hk_start_grabbing bRgbStart st.rgb with
    | .error e => .error e
    | .ok o1 =>
      if o1.ret ≠ 0 then
        match HikDriver.hk_stop_grabbing bRgbStop o1.state with
        | .error e => .error e
        | .ok o2 =>
          .ok ⟨{ st with rgb := o2.state }, [.rgbStartFail], (o1.calls ++ o2.calls).map .hk⟩
      else
        let st1 : AppState := { st with rgb := o1.state, rgbBusyFlag := true }
        let o3 := GuideDriver.open_ir_video bIrOpen st1.ir
        if o3.ret ≠ 0 then
          let o4 := GuideDriver.close_ir_video o3.state
          .ok ⟨{ st1 with ir := o4.state }, [.irStartFail],
            o1.calls.map .hk ++ (o3.calls ++ o4.calls).map .sgp⟩
        else
          .ok ⟨{ st1 with ir := o3.state, irBusyFlag := true }, [],
            o1.calls.map .hk ++ o3.calls.map .sgp⟩
  else if st.rgbOpenFlag then
    match HikDriver.hk_start_grabbing bRgbStart st.rgb with
    | .error e => .error e
    | .ok o1 =>
      if o1.ret ≠ 0 then
        match HikDriver.hk_stop_grabbing bRgbStop o1.state with
        | .error e => .error e
        | .ok o2 =>
          .ok ⟨{ st with rgb := o2.state }, [.rgbStartFail], (o1.calls ++ o2.calls).map .hk⟩
      else .ok ⟨{ st with rgb := o1.state, rgbBusyFlag := true }, [], o1.calls.map .hk⟩
  else if st.irOpenFlag then
    let o3 := GuideDriver.open_ir_video bIrOpen st.ir
    if o3.ret ≠ 0 then
      let o4 := GuideDriver.close_ir_video o3.state
      .ok ⟨{ st with ir := o4.state }, [.irStartFail], (o3.calls ++ o4.calls).map .sgp⟩
    else .ok ⟨{ st with ir := o3.state, irBusyFlag := true }, [], o3.calls.map .sgp⟩
  else .ok ⟨st, [.noCameraWarn], []⟩

end Demo

namespace Render

theorem eps_pos : 0 < eps := by norm_num [eps]

theorem pytrunc_eq_floor {q : ℚ} (h : 0 ≤ q) : pytrunc q = Int.floor q := by
  simp only [pytrunc, if_neg (not_lt.mpr h)]

theorem fmmLoop_bounds : ∀ (xs : List ℚ) (mn mx : ℚ), mn ≤ mx →
    (fmmLoop xs mn mx).1 ≤ (fmmLoop xs mn mx).2 ∧
    (fmmLoop xs mn mx).1 ≤ mn ∧ mx ≤ (fmmLoop xs mn mx).2 ∧
    ∀ x ∈ xs, (fmmLoop xs mn mx).1 ≤ x ∧ x ≤ (fmmLoop xs mn mx).2 := by
  intro xs
  induction xs with
  | nil => intro mn mx h; exact ⟨h, le_refl _, le_refl _, by simp⟩
  | cons x xs ih =>
    intro mn mx h
    simp only [fmmLoop]
    by_cases h1 : x < mn
    · rw [if_pos h1]
      obtain ⟨ha, hb, hc, hd⟩ := ih x mx (le_trans h1.le h)
      refine ⟨ha, le_trans hb h1.le, hc, ?_⟩
      intro y hy
      rcases List.mem_cons.mp hy with rfl | hy
      · exact ⟨hb, le_trans (le_trans h1.le h) hc⟩
      · exact hd y hy
    · rw [if_neg h1]
      by_cases h2 : x > mx
      · rw [if_pos h2]
        obtain ⟨ha, hb, hc, hd⟩ := ih mn x (not_lt.mp h1)
        refine ⟨ha, hb, le_trans h2.le hc, ?_⟩
        intro y hy
        rcases List.mem_cons.mp hy with rfl | hy
        · exact ⟨le_trans hb (not_lt.mp h1), hc⟩
        · exact hd y hy
      · rw [if_neg h2]
        obtain ⟨ha, hb, hc, hd⟩ := ih mn mx h
        refine ⟨ha, hb, hc, ?_⟩
        intro y hy
        rcases List.mem_cons.mp hy with rfl | hy
        · exact ⟨le_trans hb (not_lt.mp h1), le_trans (not_lt.mp h2) hc⟩
        · exact hd y hy

theorem fmmLoop_mem : ∀ (xs : List ℚ) (mn mx : ℚ),
    ((fmmLoop xs mn mx).1 = mn ∨ (fmmLoop xs mn mx).1 ∈ xs) ∧
    ((fmmLoop xs mn mx).2 = mx ∨ (fmmLoop xs mn mx).2 ∈ xs) := by
  intro xs
  induction xs with
  | nil => intro mn mx; exact ⟨Or.inl rfl, Or.inl rfl⟩
  | cons x xs ih =>
    intro mn mx
    simp only [fmmLoop]
    by_cases h1 : x < mn
    · rw [if_pos h1]
      obtain ⟨ha, hb⟩ := ih x mx
      constructor
      · rcases ha with ha | ha
        · exact Or.inr (by rw [ha]; exact List.mem_cons_self x xs)
        · exact Or.inr (List.mem_cons_of_mem x ha)
      · rcases hb with hb | hb
        · exact Or.inl hb
        · exact Or.inr (List.mem_cons_of_mem x hb)
    · rw [if_neg h1]
      by_cases h2 : x > mx
      · rw [if_pos h2]
        obtain ⟨ha, hb⟩ := ih mn x
        constructor
        · rcases ha with ha | ha
          · exact Or.inl ha
          · exact Or.inr (List.mem_cons_of_mem x ha)
        · rcases hb with hb | hb
          · exact Or.inr (by rw [hb]; exact List.mem_cons_self x xs)
          · exact Or.inr (List.mem_cons_of_mem x hb)
      · rw [if_neg h2]
        obtain ⟨ha, hb⟩ := ih mn mx
        constructor
        · rcases ha with ha | ha
          · exact Or.inl ha
          · exact Or.inr (List.mem_cons_of_mem x ha)
        · rcases hb with hb | hb
          · exact Or.inl hb
          · exact Or.inr (List.mem_cons_of_mem x hb)

theorem find_min_max_spec (d : ℚ) (tl : List ℚ) :
    ∃ mn mx, find_min_max (d :: tl) = some (mn, mx) ∧
      mn ∈ d :: tl ∧ mx ∈ d :: tl ∧ mn ≤ mx ∧
      ∀ x ∈ d :: tl, mn ≤ x ∧ x ≤ mx := by
  refine ⟨(fmmLoop tl d d).1, (fmmLoop tl d d).2, by simp [find_min_max], ?_, ?_, ?_, ?_⟩
  · rcases (fmmLoop_mem tl d d).1 with h | h
    · rw [h]; exact List.mem_cons_self d tl
    · exact List.mem_cons_of_mem d h
  · rcases (fmmLoop_mem tl d d).2 with h | h
    · rw [h]; exact List.mem_cons_self d tl
    · exact List.mem_cons_of_mem d h
  · exact (fmmLoop_bounds tl d d le_rfl).1
  · obtain ⟨_, hb, hc, hd⟩ := fmmLoop_bounds tl d d le_rfl
    intro x hx
    rcases List.mem_cons.mp hx with rfl | hx
    · exact ⟨hb, hc⟩
    · exact hd x hx

theorem normalized_value_bounds {mn mx x : ℚ} (hmn : mn ≤ x) (hmx : x ≤ mx) :
    0 ≤ (x - mn) / (mx - mn + eps) * 255 ∧ (x - mn) / (mx - mn + eps) * 255 < 255 := by
  have hD : 0 < mx - mn + eps := by
    have : (0 : ℚ) ≤ mx - mn := sub_nonneg.mpr (le_trans hmn hmx)
    linarith [eps_pos]
  constructor
  · exact mul_nonneg (div_nonneg (sub_nonneg.mpr hmn) hD.le) (by norm_num)
  · have hq : (x - mn) / (mx - mn + eps) < 1 := by
      rw [div_lt_one hD]
      have : x - mn ≤ mx - mn := by linarith
      linarith [eps_pos]
    calc (x - mn) / (mx - mn + eps) * 255 < 1 * 255 := by
          exact mul_lt_mul_of_pos_right hq (by norm_num)
      _ = 255 := one_mul 255

theorem floor_bounds_of {q : ℚ} (h0 : 0 ≤ q) (h255 : q < 255) :
    0 ≤ Int.floor q ∧ Int.floor q ≤ 254 := by
  constructor
  · exact Int.le_floor.mpr (by exact_mod_cast h0)
  · have : Int.floor q < 255 := Int.floor_lt.mpr (by exact_mod_cast h255)
    omega

theorem normalize_range (data : List ℚ) : ∀ v ∈ normalize data, 0 ≤ v ∧ v ≤ 254 := by
  cases data with
  | nil => simp [normalize, find_min_max]
  | cons d tl =>
    obtain ⟨mn, mx, hfm, _, _, _, hbd⟩ := find_min_max_spec d tl
    intro v hv
    rw [normalize, hfm] at hv
    simp only [List.mem_map] at hv
    obtain ⟨x, hx, rfl⟩ := hv
    obtain ⟨h0, h255⟩ := normalized_value_bounds (hbd x hx).1 (hbd x hx).2
    rw [pytrunc_eq_floor h0]
    exact floor_bounds_of h0 h255

theorem normalize_length (data : List ℚ) : (normalize data).length = data.length := by
  cases data with
  | nil => simp [normalize, find_min_max]
  | cons d tl => simp [normalize, find_min_max]

end Render

namespace Render

theorem bufIdx_ok (row : List ℤ) : ∀ xs : List ℕ, (∀ x ∈ xs, x < row.length) →
    ∃ vs, bufIdx row xs = some vs ∧ ∀ v ∈ vs, v ∈ row := by
  intro xs
  induction xs with
  | nil => intro _; exact ⟨[], rfl, by simp⟩
  | cons x xs ih =>
    intro hx
    have hxlt : x < row.length := hx x (List.mem_cons_self x xs)
    obtain ⟨vs, hvs, hmem⟩ := ih fun y hy => hx y (List.mem_cons_of_mem x hy)
    refine ⟨row[x] :: row[x] :: row[x] :: vs, ?_, ?_⟩
    · simp only [bufIdx, List.getElem?_eq_getElem hxlt, hvs, Option.map_some']
    · intro v hv
      rcases List.mem_cons.mp hv with rfl | hv
      · exact List.getElem_mem hxlt
      rcases List.mem_cons.mp hv with rfl | hv
      · exact List.getElem_mem hxlt
      rcases List.mem_cons.mp hv with rfl | hv
      · exact List.getElem_mem hxlt
      · exact hmem v hv

theorem bufArray_ok (array : List (List ℤ)) (w : ℕ)
    (hrow : ∀ row ∈ array, row.length = w) :
    ∀ ys : List ℕ, (∀ y ∈ ys, y < array.length) →
    ∃ vs, bufArray array w ys = some vs ∧ ∀ v ∈ vs, ∃ row ∈ array, v ∈ row := by
  intro ys
  induction ys with
  | nil => intro _; exact ⟨[], rfl, by simp⟩
  | cons y ys ih =>
    intro hy
    have hylt : y < array.length := hy y (List.mem_cons_self y ys)
    have hrowmem : array[y] ∈ array := List.getElem_mem hylt
    have hlen : (array[y]).length = w := hrow _ hrowmem
    obtain ⟨part, hpart, hpmem⟩ := bufIdx_ok array[y] (List.range w)
      (fun x hx => by rw [hlen]; exact List.mem_range.mp hx)
    obtain ⟨rest, hrest, hrmem⟩ := ih fun z hz => hy z (List.mem_cons_of_mem y hz)
    refine ⟨part ++ rest, ?_, ?_⟩
    · simp only [bufArray, List.getElem?_eq_getElem hylt, hpart, hrest, Option.map_some']
    · intro v hv
      rcases List.mem_append.mp hv with hv | hv
      · exact ⟨array[y], hrowmem, hpmem v hv⟩
      · exact hrmem v hv

theorem save_ir_img_ok (name : String) (data : List ℚ) (h w : ℕ)
    (hl : data.length = h * w) :
    ∃ buf, save_ir_img name data h w = ([.imageWrite (name ++ ".jpg")], .ok buf) := by
  have hdn : (normalize data).length = h * w := by rw [normalize_length, hl]
  have hrow : ∀ row ∈ (List.range h).map
      (fun i => ((normalize data).drop (i * w)).take w), row.length = w := by
    intro row hmem
    simp only [List.mem_map, List.mem_range] at hmem
    obtain ⟨i, hi, rfl⟩ := hmem
    rw [List.length_take, List.length_drop, hdn]
    have h1 : h * w - i * w = (h - i) * w := (Nat.sub_mul h i w).symm
    have h2 : w ≤ (h - i) * w := by
      have : 1 ≤ h - i := by omega
      calc w = 1 * w := (one_mul w).symm
        _ ≤ (h - i) * w := Nat.mul_le_mul_right w this
    omega
  have harr : ((List.range h).map
      (fun i => ((normalize data).drop (i * w)).take w)).length = h := by simp
  obtain ⟨buf, hbuf, hbmem⟩ := bufArray_ok _ w hrow (List.range h)
    (fun y hy => by rw [harr]; exact List.mem_range.mp hy)
  have hall : buf.all (fun v => decide (0 ≤ v ∧ v < 256)) = true := by
    rw [List.all_eq_true]
    intro v hv
    obtain ⟨row, hrowm, hvrow⟩ := hbmem v hv
    simp only [List.mem_map, List.mem_range] at hrowm
    obtain ⟨i, _, rfl⟩ := hrowm
    have hvd : v ∈ normalize data :=
      List.drop_subset _ _ (List.take_subset _ _ hvrow)
    have := normalize_range data v hvd
    simp only [decide_eq_true_eq]
    omega
  refine ⟨buf, ?_⟩
  simp only [save_ir_img, buildBuf, hbuf, hall, if_true, if_neg (by omega : ¬data.length ≠ h * w)]
  simp

end Render

namespace Render

theorem int_log_unique (q : ℚ) (e : ℤ) (h1 : (2 : ℚ) ^ e ≤ q) (h2 : q < 2 ^ (e + 1)) :
    Int.log 2 q = e := by
  have hq : 0 < q := lt_of_lt_of_le (zpow_pos (by norm_num) e) h1
  have hcast : ((2 : ℕ) : ℚ) = (2 : ℚ) := by norm_num
  have hle : e ≤ Int.log 2 q := by
    rw [← Int.zpow_le_iff_le_log (by norm_num) hq, hcast]
    exact h1
  have hlt : Int.log 2 q < e + 1 := by
    rw [← Int.lt_zpow_iff_log_lt (by norm_num) hq, hcast]
    exact h2
  omega

theorem roundToDouble_eval (q y0 : ℚ) (e m : ℤ)
    (hy : q / 2 ^ e = y0)
    (h1 : (2 : ℚ) ^ (52 : ℕ) ≤ y0) (h2 : y0 < 2 ^ (53 : ℕ))
    (hm : (m : ℚ) ≤ y0) (hm2 : y0 - m < 1 / 2) :
    roundToDouble q = m * 2 ^ e := by
  have he2 : (0 : ℚ) < 2 ^ e := zpow_pos (by norm_num) e
  have hq : 0 < q := by
    have h0 : (0 : ℚ) < y0 := lt_of_lt_of_le (by positivity) h1
    have := (div_pos_iff.mp (hy ▸ h0)).resolve_right (fun h => absurd h.2 (not_lt.mpr he2.le))
    exact this.1
  have hlog : Int.log 2 q = e + 52 := by
    apply int_log_unique
    · have hsplit : (2 : ℚ) ^ (e + 52) = 2 ^ e * 2 ^ (52 : ℕ) := by
        rw [zpow_add₀ (by norm_num : (2 : ℚ) ≠ 0)]; norm_num
      rw [hsplit]
      calc (2 : ℚ) ^ e * 2 ^ (52 : ℕ) ≤ 2 ^ e * y0 := mul_le_mul_of_nonneg_left h1 he2.le
        _ = q := by rw [← hy]; field_simp
    · have hsplit : (2 : ℚ) ^ (e + 52 + 1) = 2 ^ e * 2 ^ (53 : ℕ) := by
        rw [show e + 52 + 1 = e + 53 by ring, zpow_add₀ (by norm_num : (2 : ℚ) ≠ 0)]; norm_num
      rw [hsplit]
      calc q = 2 ^ e * y0 := by rw [← hy]; field_simp
        _ < 2 ^ e * 2 ^ (53 : ℕ) := mul_lt_mul_of_pos_left h2 he2
  have hfloor : Int.floor y0 = m := by
    rw [Int.floor_eq_iff]
    exact ⟨hm, by linarith⟩
  rw [roundToDouble, if_neg (not_lt.mpr hq.le), if_neg hq.ne', roundToDoublePos, hlog,
    show e + 52 - 52 = e by ring, hy, rne, hfloor]
  rw [if_pos (by rw [hfloor] at *; linarith)]

theorem rne_ge_floor (y : ℚ) : Int.floor y ≤ rne y := by
  rw [rne]
  split
  · exact le_refl _
  · split
    · omega
    · split
      · exact le_refl _
      · omega

theorem roundToDouble_zero : roundToDouble 0 = 0 := by norm_num [roundToDouble]

theorem roundToDouble_pos {q : ℚ} (hq : 0 < q) : 0 < roundToDouble q := by
  rw [roundToDouble, if_neg (not_lt.mpr hq.le), if_neg hq.ne', roundToDoublePos]
  have he2 : (0 : ℚ) < 2 ^ (Int.log 2 q - 52) := zpow_pos (by norm_num) _
  have hbound : (2 : ℚ) ^ Int.log 2 q ≤ q := by
    have := Int.zpow_log_le_self (b := 2) (by norm_num) hq (R := ℚ)
    simpa using this
  have hy : (1 : ℚ) ≤ q / 2 ^ (Int.log 2 q - 52) := by
    rw [le_div_iff₀ he2]
    calc (1 : ℚ) * 2 ^ (Int.log 2 q - 52) = 2 ^ (Int.log 2 q - 52) := one_mul _
      _ ≤ 2 ^ Int.log 2 q := by
          apply zpow_le_zpow_right₀ (by norm_num)
          omega
      _ ≤ q := hbound
  have hfl : (1 : ℤ) ≤ Int.floor (q / 2 ^ (Int.log 2 q - 52)) := by
    exact_mod_cast Int.le_floor.mpr (by exact_mod_cast hy)
  have hrne : (1 : ℤ) ≤ rne (q / 2 ^ (Int.log 2 q - 52)) :=
    le_trans hfl (rne_ge_floor _)
  have hcast : (1 : ℚ) ≤ (rne (q / 2 ^ (Int.log 2 q - 52)) : ℚ) := by exact_mod_cast hrne
  positivity

theorem roundToDouble_nonneg {q : ℚ} (hq : 0 ≤ q) : 0 ≤ roundToDouble q := by
  rcases eq_or_lt_of_le hq with h | h
  · rw [← h, roundToDouble_zero]
  · exact (roundToDouble_pos h).le

theorem rtd_one : roundToDouble 1 = 1 := by
  have h := roundToDouble_eval 1 (2 ^ 52) (-52) (2 ^ 52)
    (by rw [zpow_neg]; norm_num) (by norm_num) (by norm_num) (by norm_num) (by norm_num)
  rw [h, zpow_neg]; norm_num

theorem rtd_four : roundToDouble 4 = 4 := by
  have h := roundToDouble_eval 4 (2 ^ 52) (-50) (2 ^ 52)
    (by rw [zpow_neg]; norm_num) (by norm_num) (by norm_num) (by norm_num) (by norm_num)
  rw [h, zpow_neg]; norm_num

theorem rtd_quarter : roundToDouble (1 / 4) = 1 / 4 := by
  have h := roundToDouble_eval (1 / 4) (2 ^ 52) (-54) (2 ^ 52)
    (by rw [zpow_neg]; norm_num) (by norm_num) (by norm_num) (by norm_num) (by norm_num)
  rw [h, zpow_neg]; norm_num

theorem rtd_6375 : roundToDouble (255 / 4) = 255 / 4 := by
  have h := roundToDouble_eval (255 / 4) 8972014882652160 (-47) 8972014882652160
    (by rw [zpow_neg]; norm_num) (by norm_num) (by norm_num) (by norm_num) (by norm_num)
  rw [h, zpow_neg]; norm_num

theorem rtd_255 : roundToDouble 255 = 255 := by
  have h := roundToDouble_eval 255 8972014882652160 (-45) 8972014882652160
    (by rw [zpow_neg]; norm_num) (by norm_num) (by norm_num) (by norm_num) (by norm_num)
  rw [h, zpow_neg]; norm_num

theorem eps64_eq : eps64 = 8112963841460668 / 2 ^ 106 := by
  rw [eps64, eps]
  have h := roundToDouble_eval (1 / 10 ^ 16) (81129638414606681695789005144064 / 10 ^ 16)
    (-106) 8112963841460668
    (by rw [zpow_neg]; norm_num) (by norm_num) (by norm_num) (by norm_num) (by norm_num)
  rw [h, zpow_neg]; norm_num

theorem rtd_four_eps : roundToDouble (4 + eps64) = 4 := by
  rw [eps64_eq]
  have h := roundToDouble_eval (4 + 8112963841460668 / 2 ^ 106)
    (2 ^ 52 + 8112963841460668 / 2 ^ 56) (-50) (2 ^ 52)
    (by rw [zpow_neg]; norm_num) (by norm_num) (by norm_num) (by norm_num) (by norm_num)
  rw [h, zpow_neg]; norm_num

theorem progressValue_29_50 : progressValue 29 50 = 57 := by
  rw [progressValue,
    show ((29 : ℕ) : ℚ) = 29 from by norm_num, show ((50 : ℕ) : ℚ) = 50 from by norm_num]
  have h1 : floatDiv (29 : ℚ) 50 = 5224175567749775 / 2 ^ 53 := by
    rw [floatDiv]
    have h := roundToDouble_eval ((29 : ℚ) / 50) (130604389193744384 / 25) (-53)
      5224175567749775
      (by rw [zpow_neg]; norm_num) (by norm_num) (by norm_num) (by norm_num) (by norm_num)
    rw [h, zpow_neg]; norm_num
  rw [h1, floatMul]
  have h2 : roundToDouble (5224175567749775 / 2 ^ 53 * 100) = 8162774324609023 / 2 ^ 47 := by
    have h := roundToDouble_eval (5224175567749775 / 2 ^ 53 * 100) (130604389193744375 / 16)
      (-47) 8162774324609023
      (by rw [zpow_neg]; norm_num) (by norm_num) (by norm_num) (by norm_num) (by norm_num)
    rw [h, zpow_neg]; norm_num
  rw [h2, pytrunc, if_neg (by norm_num), Int.floor_eq_iff]
  constructor
  · norm_num
  · norm_num

theorem renderLoop_trace (h w total : ℕ) :
    ∀ (docs : List (String × List ℚ)) (c0 : ℕ),
    (∀ d ∈ docs, (d.2).length = h * w) →
    renderLoop h w total docs c0 = (specTraceFrom total c0 docs, .ok (c0 + docs.length)) := by
  intro docs
  induction docs with
  | nil => intro c0 _; simp [renderLoop, specTraceFrom]
  | cons d rest ih =>
    intro c0 hlen
    obtain ⟨name, data⟩ := d
    obtain ⟨buf, hbuf⟩ :=
      save_ir_img_ok name data h w (hlen (name, data) (List.mem_cons_self _ _))
    have hrest := ih (c0 + 1) fun d hd => hlen d (List.mem_cons_of_mem _ hd)
    simp only [renderLoop, hbuf, hrest, specTraceFrom,
      List.cons_append, List.singleton_append, List.nil_append, Prod.mk.injEq]
    refine ⟨trivial, congrArg Except.ok ?_⟩
    simp only [List.length_cons]
    omega

theorem specTraceFrom_replicate_progress (total : ℕ) (d : String × List ℚ) :
    ∀ (i c0 m : ℕ), i < m →
    (specTraceFrom total c0 (List.replicate m d))[2 * i + 1]? =
      some (.progress d.1 (c0 + i + 1) (progressValue (c0 + i + 1) total)) := by
  intro i
  induction i with
  | zero =>
    intro c0 m hm
    obtain ⟨m', rfl⟩ := Nat.exists_eq_succ_of_ne_zero (by omega : m ≠ 0)
    rw [List.replicate_succ, specTraceFrom]
    simp
  | succ i ih =>
    intro c0 m hm
    obtain ⟨m', rfl⟩ := Nat.exists_eq_succ_of_ne_zero (by omega : m ≠ 0)
    rw [List.replicate_succ, show 2 * (i + 1) + 1 = (2 * i + 1) + 1 + 1 by ring,
      specTraceFrom, List.getElem?_cons_succ, List.getElem?_cons_succ,
      show c0 + (i + 1) + 1 = (c0 + 1) + i + 1 by omega]
    exact ih (c0 + 1) m' (by omega)

/-- C6 (counterexample): a working set of 50 well-formed one-sample documents.
The 29th progress event (trace index 57) carries percentage 57, because the
program evaluates `int(29 / 50 * 100)` in doubles (`29/50` rounds below 0.58
and the product rounds to 57.99999999999999), whereas the claim's formula
`floor(29 / 50 * 100)` is 58. -/
theorem render_percentage_not_floor_cex :
    (render_temp2img 1 1 (List.replicate 50 ("d", ([0] : List ℚ)))).1[57]? =
      some (.progress "d" 29 57) ∧
    Int.floor ((29 : ℚ) / 50 * 100) = 58 := by
  constructor
  · have hlen : ∀ p ∈ List.replicate 50 ("d", ([0] : List ℚ)), (p.2).length = 1 * 1 := by
      intro p hp
      rw [List.eq_of_mem_replicate hp]
      rfl
    have ht := renderLoop_trace 1 1 50 (List.replicate 50 ("d", ([0] : List ℚ))) 0 hlen
    have h0 : render_temp2img 1 1 (List.replicate 50 ("d", ([0] : List ℚ))) =
        renderLoop 1 1 50 (List.replicate 50 ("d", ([0] : List ℚ))) 0 := by
      have hnn : List.replicate 50 ("d", ([0] : List ℚ)) ≠ [] := by
        rw [List.replicate_succ]
        exact List.cons_ne_nil _ _
      have hie : (List.replicate 50 ("d", ([0] : List ℚ))).isEmpty = false := by
        cases hrep : List.replicate 50 ("d", ([0] : List ℚ)) with
        | nil => exact absurd hrep hnn
        | cons a l => rfl
      rw [render_temp2img, hie, List.length_replicate]
      rfl
    rw [h0, ht]
    have hidx := specTraceFrom_replicate_progress 50 ("d", ([0] : List ℚ)) 28 0 50 (by omega)
    rw [show (57 : ℕ) = 2 * 28 + 1 by norm_num, hidx, progressValue_29_50]
  · rw [show (29 : ℚ) / 50 * 100 = ((58 : ℤ) : ℚ) by norm_num]
    exact Int.floor_intCast 58

/-- C6 (amended): for every working set of `n ≥ 1` documents that all have
exactly `height * width` samples, the pipeline emits, per document in order,
the image write immediately followed by one progress event, with the
processed count strictly increasing `1 .. n` and the percentage the
double-evaluated `int(count / n * 100)` — which can sit one below the exact
`⌊count / n * 100⌋` — and the final result carries processed count `n`. -/
theorem render_trace_and_final_count (h w : ℕ)
    (docs : List (String × List ℚ)) (hne : docs ≠ [])
    (hlen : ∀ d ∈ docs, (d.2).length = h * w) :
    render_temp2img h w docs = (specProgressTrace docs, .ok docs.length) := by
  have hie : docs.isEmpty = false := by
    cases docs with
    | nil => exact absurd rfl hne
    | cons a l => rfl
  rw [render_temp2img, hie]
  simpa [specProgressTrace] using renderLoop_trace h w docs.length docs 0 hlen

/-- Witness for C6's amended statement at the spec's own test case: two
documents of six samples each, declared 2 x 3; counts 1 then 2, final
count 2. -/
theorem render_trace_and_final_count_witness :
    render_temp2img 2 3 [("a", [1, 2, 3, 4, 5, 6]), ("b", [6, 5, 4, 3, 2, 1])] =
      (specProgressTrace [("a", [1, 2, 3, 4, 5, 6]), ("b", [6, 5, 4, 3, 2, 1])],
        .ok 2) := by
  have h := render_trace_and_final_count 2 3
    [("a", [1, 2, 3, 4, 5, 6]), ("b", [6, 5, 4, 3, 2, 1])] (by decide) (by decide)
  simpa using h

theorem fmmLoop_replicate (c : ℚ) : ∀ n, fmmLoop (List.replicate n c) c c = (c, c) := by
  intro n
  induction n with
  | zero => rfl
  | succ n ih =>
    rw [List.replicate_succ]
    simp only [fmmLoop, lt_self_iff_false, if_false, gt_iff_lt]
    exact ih

theorem normalize_replicate (c : ℚ) (n : ℕ) (hn : n ≠ 0) :
    find_min_max (List.replicate n c) = some (c, c) ∧
    normalize (List.replicate n c) = List.replicate n 0 := by
  obtain ⟨m, rfl⟩ := Nat.exists_eq_succ_of_ne_zero hn
  have hfm : find_min_max (List.replicate (m + 1) c) = some (c, c) := by
    rw [List.replicate_succ, find_min_max, fmmLoop_replicate]
  refine ⟨hfm, ?_⟩
  simp only [normalize, hfm]
  have hz : pytrunc 0 = 0 := by simp [pytrunc]
  simp [List.map_replicate, hz]

/-- C2 (failing input): a working set whose first document has 5 samples
declared as 2 x 3 and whose second document is well-formed.  The mismatch is
logged for the first document, but the unguarded buffer construction then
raises `IndexError`, which propagates out of the loop: the second document is
never processed and the batch is aborted — contradicting the claim that the
mismatch only affects the offending document. -/
theorem shape_mismatch_aborts_batch :
    render_temp2img 2 3 [("a", List.replicate 5 (10 : ℚ)), ("b", List.replicate 6 (20 : ℚ))] =
      ([.errorLog "Data size mismatch"], .error "IndexError") := by
  have hn := (normalize_replicate (10 : ℚ) 5 (by decide)).2
  have hs : save_ir_img "a" (List.replicate 5 (10 : ℚ)) 2 3 =
      ([.errorLog "Data size mismatch"], .error "IndexError") := by
    simp only [save_ir_img, hn]
    rfl
  have h0 : render_temp2img 2 3
      [("a", List.replicate 5 (10 : ℚ)), ("b", List.replicate 6 (20 : ℚ))] =
      renderLoop 2 3 2 [("a", List.replicate 5 (10 : ℚ)), ("b", List.replicate 6 (20 : ℚ))] 0 := rfl
  rw [h0]
  simp only [renderLoop, hs]

end Render

namespace Render

/-- C9: for every non-empty constant sample sequence, the one-pass min/max are
both the constant, the divisor `max - min + 1e-16` is non-zero (so no division
error can arise), and every sample normalizes to zero. -/
theorem normalize_constant_sequence (c : ℚ) (n : ℕ) (hn : n ≠ 0) :
    find_min_max (List.replicate n c) = some (c, c) ∧
    c - c + eps ≠ 0 ∧
    normalize (List.replicate n c) = List.replicate n 0 := by
  obtain ⟨h1, h2⟩ := normalize_replicate c n hn
  refine ⟨h1, ?_, h2⟩
  rw [sub_self, zero_add]
  exact ne_of_gt eps_pos

/-- Witness for C9 at the spec's test input `[10, 10, 10]`. -/
theorem normalize_constant_sequence_witness :
    find_min_max (List.replicate 3 (10 : ℚ)) = some (10, 10) ∧
    (10 : ℚ) - 10 + eps ≠ 0 ∧
    normalize (List.replicate 3 (10 : ℚ)) = List.replicate 3 0 :=
  normalize_constant_sequence 10 3 (by decide)

theorem fmm_014 : find_min_max ([0, 1, 4] : List ℚ) = some (0, 4) := by
  have e1 : fmmLoop [1, 4] (0 : ℚ) 0 = (0, 4) := by
    rw [fmmLoop, if_neg (by norm_num), if_pos (by norm_num),
      fmmLoop, if_neg (by norm_num), if_pos (by norm_num), fmmLoop]
  rw [find_min_max, e1]

theorem eps64_pos : (0 : ℚ) < eps64 := by
  rw [eps64_eq]
  positivity

theorem pytrunc_zero : pytrunc 0 = 0 := by simp [pytrunc]

theorem pytrunc_6375 : pytrunc ((255 : ℚ) / 4) = 63 := by
  rw [pytrunc, if_neg (by norm_num), Int.floor_eq_iff]
  constructor
  · norm_num
  · norm_num

theorem pytrunc_255 : pytrunc (255 : ℚ) = 255 := by
  rw [pytrunc, if_neg (by norm_num), show (255 : ℚ) = ((255 : ℤ) : ℚ) by norm_num,
    Int.floor_intCast]

theorem normalize64_014 : normalize64 [0, 1, 4] = [0, 63, 255] := by
  have hsub0 : floatSub (0 : ℚ) 0 = 0 := by
    rw [floatSub, show (0 : ℚ) - 0 = 0 by norm_num, roundToDouble_zero]
  have hsub1 : floatSub (1 : ℚ) 0 = 1 := by
    rw [floatSub, show (1 : ℚ) - 0 = 1 by norm_num, rtd_one]
  have hsub4 : floatSub (4 : ℚ) 0 = 4 := by
    rw [floatSub, show (4 : ℚ) - 0 = 4 by norm_num, rtd_four]
  have hden : floatAdd (4 : ℚ) eps64 = 4 := by rw [floatAdd, rtd_four_eps]
  have hdiv0 : floatDiv (0 : ℚ) 4 = 0 := by
    rw [floatDiv, show (0 : ℚ) / 4 = 0 by norm_num, roundToDouble_zero]
  have hdiv1 : floatDiv (1 : ℚ) 4 = 1 / 4 := by rw [floatDiv, rtd_quarter]
  have hdiv4 : floatDiv (4 : ℚ) 4 = 1 := by
    rw [floatDiv, show (4 : ℚ) / 4 = 1 by norm_num, rtd_one]
  have hmul0 : floatMul (0 : ℚ) 255 = 0 := by
    rw [floatMul, show (0 : ℚ) * 255 = 0 by norm_num, roundToDouble_zero]
  have hmul1 : floatMul ((1 : ℚ) / 4) 255 = 255 / 4 := by
    rw [floatMul, show (1 : ℚ) / 4 * 255 = 255 / 4 by norm_num, rtd_6375]
  have hmul4 : floatMul (1 : ℚ) 255 = 255 := by
    rw [floatMul, show (1 : ℚ) * 255 = 255 by norm_num, rtd_255]
  simp only [normalize64, fmm_014, List.map_cons, List.map_nil]
  rw [hsub4, hsub0, hsub1, hden, hdiv0, hdiv1, hdiv4, hmul0, hmul1, hmul4,
    pytrunc_zero, pytrunc_6375, pytrunc_255]

/-- C5 (amended): normalization computes the one-pass minimum and maximum of
the sequence — they are members of the sequence and bound every sample — and
maps each sample `x` to `int((x - min)/(max - min + 1e-16) * 255)` evaluated
in IEEE-double arithmetic: truncation toward zero rather than `round`, with
no clamping applied (and a still non-zero double divisor).  On `[0, 1, 4]`
the program yields `[0, 63, 255]`: the middle sample truncates to 63 where
the spec formula rounds to 64, and the epsilon is absorbed by double
rounding so the maximum sample reaches 255 unclamped. -/
theorem normalize64_truncation (data : List ℚ) (hne : data ≠ []) :
    (∃ mn mx, find_min_max data = some (mn, mx) ∧
      mn ∈ data ∧ mx ∈ data ∧ (∀ x ∈ data, mn ≤ x ∧ x ≤ mx) ∧
      0 < floatAdd (floatSub mx mn) eps64 ∧
      normalize64 data = data.map fun x =>
        pytrunc (floatMul (floatDiv (floatSub x mn) (floatAdd (floatSub mx mn) eps64)) 255)) ∧
    normalize64 [0, 1, 4] = [0, 63, 255] := by
  refine ⟨?_, normalize64_014⟩
  cases data with
  | nil => exact absurd rfl hne
  | cons d tl =>
    obtain ⟨mn, mx, hfm, hmn, hmx, hle, hbd⟩ := find_min_max_spec d tl
    refine ⟨mn, mx, hfm, hmn, hmx, hbd, ?_, ?_⟩
    · have hsubnn : 0 ≤ floatSub mx mn := by
        rw [floatSub]
        exact roundToDouble_nonneg (by linarith)
      rw [floatAdd]
      exact roundToDouble_pos (by linarith [eps64_pos])
    · simp only [normalize64, hfm]

/-- Witness for C5's amended statement at the sequence `[0, 1, 4]`. -/
theorem normalize64_truncation_witness :
    (∃ mn mx, find_min_max ([0, 1, 4] : List ℚ) = some (mn, mx) ∧
      mn ∈ ([0, 1, 4] : List ℚ) ∧ mx ∈ ([0, 1, 4] : List ℚ) ∧
      (∀ x ∈ ([0, 1, 4] : List ℚ), mn ≤ x ∧ x ≤ mx) ∧
      0 < floatAdd (floatSub mx mn) eps64 ∧
      normalize64 [0, 1, 4] = ([0, 1, 4] : List ℚ).map fun x =>
        pytrunc (floatMul (floatDiv (floatSub x mn) (floatAdd (floatSub mx mn) eps64)) 255)) ∧
    normalize64 [0, 1, 4] = [0, 63, 255] :=
  normalize64_truncation [0, 1, 4] (by decide)

theorem arg_014 : ((1 : ℚ) - 0) / (4 - 0 + eps) * 255 =
    2550000000000000000 / 40000000000000001 := by
  rw [eps]; norm_num

/-- C5 (counterexample): on the sequence `[0, 1, 4]` the code maps the middle
sample to `int(255/(4 + 1e-16)) = 63`, while the spec's
`round(...)-then-clamp` formula yields `64`; the claimed mapping is therefore
not the one the code computes.  (IEEE-double evaluation of the source gives
`int(63.75) = 63` at this input as well, so the exact-rational model and the
actual float execution agree here.) -/
theorem normalize_not_round_clamp_cex :
    (normalize [0, 1, 4])[1]? = some 63 ∧
    (specNormalize [0, 1, 4])[1]? = some 64 ∧
    normalize [0, 1, 4] ≠ specNormalize [0, 1, 4] := by
  have hfl : Int.floor ((2550000000000000000 : ℚ) / 40000000000000001) = 63 := by
    rw [Int.floor_eq_iff]
    constructor
    · norm_num
    · norm_num
  have hpt : pytrunc (((1 : ℚ) - 0) / (4 - 0 + eps) * 255) = 63 := by
    rw [pytrunc, arg_014, if_neg (by norm_num), hfl]
  have hrd : round (((1 : ℚ) - 0) / (4 - 0 + eps) * 255) = 64 := by
    rw [arg_014, round_eq]
    have harg : (2550000000000000000 : ℚ) / 40000000000000001 + 1 / 2 =
        5140000000000000001 / 80000000000000002 := by norm_num
    rw [harg, Int.floor_eq_iff]
    constructor
    · norm_num
    · norm_num
  have hA : (normalize [0, 1, 4])[1]? = some 63 := by
    simp only [normalize, fmm_014, List.map_cons, List.map_nil,
      List.getElem?_cons_succ, List.getElem?_cons_zero]
    simp only [Option.some.injEq]
    exact hpt
  have hB : (specNormalize [0, 1, 4])[1]? = some 64 := by
    simp only [specNormalize, fmm_014, List.map_cons, List.map_nil,
      List.getElem?_cons_succ, List.getElem?_cons_zero]
    simp only [Option.some.injEq]
    rw [hrd]
    decide
  exact ⟨hA, hB, fun h => absurd (hB.symm.trans (h ▸ hA)) (by decide)⟩

end Render

/-- C3 (code bug): the RGB close is idempotent as claimed — closing an
already-closed session returns `MV_OK` with no native call and an unchanged
state — but `IRCamera.logout`'s already-logged-out guard only warns (its
`return SGP_OK` is commented out), so the IR close of an already-closed
session STILL issues the native `logout` call and returns failure whenever
the backend rejects the spurious logout; state is nonetheless forced to
not-logged-in. -/
theorem logout_not_idempotent_on_closed_session :
    HikDriver.hk_close_device 0 ⟨false, false, false⟩ =
      .ok ⟨HikDriver.MV_OK, ⟨false, false, false⟩, [], true⟩ ∧
    GuideDriver.logout 1 ⟨some 1, false, false⟩ =
      ⟨1, ⟨some 1, false, false⟩, [.logoutCall], true⟩ ∧
    GuideDriver.logout 0 ⟨some 1, false, false⟩ =
      ⟨GuideDriver.SGP_OK, ⟨some 1, false, false⟩, [.logoutCall], true⟩ :=
  ⟨rfl, rfl, rfl⟩

/-- C4 (code bug): `hk_stop_grabbing` has no state guard: on a session that
was never opened it raises `AttributeError` (which propagates), and on a
Connected (non-streaming) session it still issues the native `Stop_grabbing`
and returns failure when the backend rejects it.  The IR side conforms:
`close_ir_video` on a non-streaming session is a no-op success with no native
call, and on a streaming session it stops the stream. -/
theorem stop_grabbing_not_idempotent :
    HikDriver.hk_stop_grabbing 0 ⟨false, false, false⟩ = .error "AttributeError" ∧
    HikDriver.hk_stop_grabbing 1 ⟨true, false, true⟩ =
      .ok ⟨1, ⟨true, false, true⟩, [.stopGrabbing], false⟩ ∧
    GuideDriver.close_ir_video ⟨some 1, true, false⟩ =
      ⟨GuideDriver.SGP_OK, ⟨some 1, true, false⟩, [], true⟩ ∧
    GuideDriver.close_ir_video ⟨some 1, true, true⟩ =
      ⟨GuideDriver.SGP_OK, ⟨some 1, true, false⟩, [.closeIrVideo], false⟩ :=
  ⟨rfl, rfl, rfl, rfl⟩

/-- C7: opening a session whose state is not Initialized issues zero native
calls and leaves the state unchanged; in the Connected/Streaming states the
duplicate branch is signalled (the RGB driver warns and returns the generic
failure `not MV_OK`, the IR driver warns and returns `SGP_OK`). -/
theorem open_duplicate_no_native_call :
    (∀ (nSel bOpen : ℤ) (s : HikDriver.RGBState),
      HikDriver.rgbSessionState s ≠ .initialized →
        HikDriver.hk_open_device nSel bOpen s = ⟨1, s, [], true⟩) ∧
    (∀ (bLogin : ℤ) (t : GuideDriver.IRState),
      GuideDriver.irSessionState t ≠ .initialized →
        (GuideDriver.login bLogin t).calls = [] ∧
        (GuideDriver.login bLogin t).state = t ∧
        ((GuideDriver.irSessionState t = .connected ∨
            GuideDriver.irSessionState t = .streaming) →
          GuideDriver.login bLogin t = ⟨GuideDriver.SGP_OK, t, [], true⟩)) := by
  constructor
  · intro nSel bOpen s hs
    cases hl : s.loggedIn with
    | false => exact absurd (by simp [HikDriver.rgbSessionState, hl]) hs
    | true => simp [HikDriver.hk_open_device, hl]
  · intro bLogin t ht
    cases hh : t.handle with
    | none =>
      have hu : GuideDriver.irSessionState t = .uninitialized := by
        simp [GuideDriver.irSessionState, hh]
      have hlg : GuideDriver.login bLogin t = ⟨1, t, [], false⟩ := by
        simp [GuideDriver.login, GuideDriver.ensure_handle, GuideDriver.SGP_OK, hh]
      refine ⟨by rw [hlg], by rw [hlg], ?_⟩
      rintro (hc | hc) <;> rw [hu] at hc <;> exact absurd hc (by decide)
    | some v =>
      cases hl : t.loggedIn with
      | false =>
        exact absurd (by simp [GuideDriver.irSessionState, hh, hl]) ht
      | true =>
        have hlg : GuideDriver.login bLogin t = ⟨GuideDriver.SGP_OK, t, [], true⟩ := by
          simp [GuideDriver.login, GuideDriver.ensure_handle, GuideDriver.SGP_OK, hh, hl]
        exact ⟨by rw [hlg], by rw [hlg], fun _ => hlg⟩

/-- Witness for C7: an RGB session in Connected state and an IR session in
Connected state; open issues no native call in either driver. -/
theorem open_duplicate_no_native_call_witness :
    HikDriver.hk_open_device 0 0 ⟨true, false, true⟩ =
      ⟨1, ⟨true, false, true⟩, [], true⟩ ∧
    GuideDriver.login 0 ⟨some 1, true, false⟩ =
      ⟨GuideDriver.SGP_OK, ⟨some 1, true, false⟩, [], true⟩ :=
  ⟨open_duplicate_no_native_call.1 0 0 ⟨true, false, true⟩ (by decide),
    (open_duplicate_no_native_call.2 0 ⟨some 1, true, false⟩ (by decide)).2.2
      (Or.inl (by decide))⟩

/-- C8: each worker delivers exactly one terminal event per task — `result`
with the body's return value when the body returns, `error` when it raises —
never both; the loop worker's step events all precede the terminal event,
which is the last event delivered.  The models are total functions, mirroring
the bare `except` that stops any exception from escaping `run`. -/
theorem worker_exactly_one_terminal_event {α β : Type}
    (steps : List β) (out : Except Unit α) :
    (Worker.FunctionWorker.run (β := β) out).filter Worker.isTerminal =
      [match out with | .ok v => Worker.Event.result v | .error _ => Worker.Event.error] ∧
    (Worker.FunctionLoopWorker.run (steps, out)).filter Worker.isTerminal =
      [match out with | .ok v => Worker.Event.result v | .error _ => Worker.Event.error] ∧
    (Worker.FunctionLoopWorker.run (steps, out)).getLast? =
      some (match out with | .ok v => Worker.Event.result v | .error _ => Worker.Event.error) := by
  have hsteps : (steps.map (Worker.Event.step (α := α))).filter Worker.isTerminal = [] := by
    rw [List.filter_eq_nil_iff]
    intro a ha
    obtain ⟨b, _, rfl⟩ := List.mem_map.mp ha
    simp [Worker.isTerminal]
  cases out with
  | ok v =>
    refine ⟨rfl, ?_, ?_⟩
    · rw [Worker.FunctionLoopWorker.run, List.filter_append, hsteps]
      rfl
    · rw [Worker.FunctionLoopWorker.run]
      exact List.getLast?_concat _
  | error e =>
    refine ⟨rfl, ?_, ?_⟩
    · rw [Worker.FunctionLoopWorker.run, List.filter_append, hsteps]
      rfl
    · rw [Worker.FunctionLoopWorker.run]
      exact List.getLast?_concat _

/-- C10: Python's `bool` being a subclass of `int`, `set_gain(True)` passes
the `isinstance(..., int)` guard and the `0 <= gain <= 17` comparison (where
`True` counts as 1) and caches the boolean `True` itself, returning success;
`set_port(True)` succeeds because `int(True) = 1`, storing port `1` — even
though neither input is an `int` value proper. -/
theorem bool_accepted_by_gain_and_port_validators :
    HikDriver.set_gain (Py.PyVal.pyBool true) =
      (HikDriver.MV_OK, some (Py.PyVal.pyBool true)) ∧
    Py.numeric (Py.PyVal.pyBool true) = 1 ∧
    Py.isinstanceInt (Py.PyVal.pyBool true) = true ∧
    Py.PyVal.pyBool true ≠ Py.PyVal.pyInt 1 ∧
    GuideDriver.set_port (Py.PyVal.pyBool true) = (GuideDriver.SGP_OK, some 1) :=
  ⟨rfl, rfl, rfl, by decide, rfl⟩

/-- C1 (counterexample): both cameras open and connected, RGB start succeeds
(backend code 0) and IR open fails (backend code 1).  The run returns with the
RGB session still streaming (`videoOpened = true`, `rgbBusyFlag = true`), the
only cleanup call being a no-op close of the IR video that never opened; no
`Stop_grabbing` is ever issued, so the claimed compensating rollback of the
first session does not happen, although the failure itself is reported. -/
theorem startAcquisition_no_rollback_cex :
    Demo.startAcquisition 0 0 1
        ⟨⟨true, false, true⟩, ⟨some 1, true, false⟩, true, true, false, false⟩ =
      .ok ⟨⟨⟨true, true, true⟩, ⟨some 1, true, false⟩, true, true, true, false⟩,
        [.irStartFail], [.hk .startGrabbing, .sgp .openIrVideo]⟩ ∧
    Demo.AppCall.hk .stopGrabbing ∉
      [Demo.AppCall.hk .startGrabbing, Demo.AppCall.sgp .openIrVideo] :=
  ⟨rfl, by decide⟩

/-- C1 (amended): whenever the start path runs with both cameras open and not
busy, the RGB session connected (not yet streaming, with a live operation
object), the IR video closed, RGB start succeeding and IR open failing, the
operation reports the failure notice but performs no rollback: the RGB stream
stays up with `rgbBusyFlag` set, the IR stays closed with `irBusyFlag` clear,
and no native `Stop_grabbing` is issued at any point. -/
theorem startAcquisition_ir_failure_keeps_rgb_streaming
    (bRgbStop bIrOpen : ℤ) (st : Demo.AppState)
    (h1 : st.rgbBusyFlag = false) (h2 : st.irBusyFlag = false)
    (h3 : st.rgbOpenFlag = true) (h4 : st.irOpenFlag = true)
    (h5 : st.rgb.loggedIn = true) (h6 : st.rgb.videoOpened = false)
    (h7 : st.rgb.hasCamOp = true) (h8 : st.ir.videoOpened = false)
    (h9 : bIrOpen ≠ 0) :
    ∃ out, Demo.startAcquisition 0 bRgbStop bIrOpen st = .ok out ∧
      out.state.rgb.videoOpened = true ∧
      out.state.rgbBusyFlag = true ∧
      out.state.irBusyFlag = false ∧
      out.state.ir.videoOpened = false ∧
      out.notices = [.irStartFail] ∧
      Demo.AppCall.hk .stopGrabbing ∉ out.calls := by
  have ho1 : HikDriver.hk_start_grabbing 0 st.rgb =
      .ok ⟨HikDriver.MV_OK, { st.rgb with videoOpened := true }, [.startGrabbing], false⟩ := by
    simp [HikDriver.hk_start_grabbing, h5, h6, h7]
  have ho4 : GuideDriver.close_ir_video st.ir =
      ⟨GuideDriver.SGP_OK, st.ir, [], true⟩ := by
    simp [GuideDriver.close_ir_video, h8]
  cases hh : st.ir.handle with
  | none =>
    have ho3 : GuideDriver.open_ir_video bIrOpen st.ir = ⟨1, st.ir, [], false⟩ := by
      simp [GuideDriver.open_ir_video, GuideDriver.ensure_handle, GuideDriver.SGP_OK, hh]
    refine ⟨⟨{ st with rgb := { st.rgb with videoOpened := true }, rgbBusyFlag := true },
      [.irStartFail], [.hk .startGrabbing]⟩, ?_, by simp, by simp, by simp [h2], by simp [h8],
      rfl, by simp⟩
    simp only [Demo.startAcquisition, h1, h2, h3, h4, ho1, ho3, ho4]
    norm_num [HikDriver.MV_OK, GuideDriver.SGP_OK]
  | some v =>
    have ho3 : GuideDriver.open_ir_video bIrOpen st.ir =
        ⟨1, st.ir, [.openIrVideo], false⟩ := by
      simp [GuideDriver.open_ir_video, GuideDriver.ensure_handle, GuideDriver.SGP_OK,
        hh, h8, h9]
    refine ⟨⟨{ st with rgb := { st.rgb with videoOpened := true }, rgbBusyFlag := true },
      [.irStartFail], [.hk .startGrabbing, .sgp .openIrVideo]⟩, ?_, by simp, by simp,
      by simp [h2], by simp [h8], rfl, by simp⟩
    simp only [Demo.startAcquisition, h1, h2, h3, h4, ho1, ho3, ho4]
    norm_num [HikDriver.MV_OK, GuideDriver.SGP_OK]

/-- Witness for C1's amended statement at the counterexample input. -/
theorem startAcquisition_ir_failure_keeps_rgb_streaming_witness :
    ∃ out, Demo.startAcquisition 0 0 1
        ⟨⟨true, false, true⟩, ⟨some 1, true, false⟩, true, true, false, false⟩ = .ok out ∧
      out.state.rgb.videoOpened = true ∧
      out.state.rgbBusyFlag = true ∧
      out.state.irBusyFlag = false ∧
      out.state.ir.videoOpened = false ∧
      out.notices = [.irStartFail] ∧
      Demo.AppCall.hk .stopGrabbing ∉ out.calls :=
  startAcquisition_ir_failure_keeps_rgb_streaming 0 1
    ⟨⟨true, false, true⟩, ⟨some 1, true, false⟩, true, true, false, false⟩
    rfl rfl rfl rfl rfl rfl rfl rfl (by decide)

/-- Witness for C8: a loop-worker task that emits one step and returns 7
delivers exactly the terminal `result 7`, last in the trace. -/
theorem worker_exactly_one_terminal_event_witness :
    (Worker.FunctionWorker.run (β := ℕ) (Except.ok 7)).filter Worker.isTerminal =
      [Worker.Event.result 7] ∧
    (Worker.FunctionLoopWorker.run ([0], Except.ok 7)).filter Worker.isTerminal =
      [Worker.Event.result 7] ∧
    (Worker.FunctionLoopWorker.run ([0], Except.ok (7 : ℕ))).getLast? =
      some (Worker.Event.result 7) :=
  worker_exactly_one_terminal_event [0] (Except.ok 7)
